import Mathlib

/-!
Verification of the cascading license-detection pipeline of
go-license-detector (files `licensedb/licensedb.go` and
`licensedb/internal/investigation.go`).

Modelling conventions, shared by all definitions below:

* Go strings and byte slices are byte sequences; both are modelled as
  `GoStr := List Char`, faithful byte-for-byte on ASCII data (all file-name
  patterns in the source are ASCII).  `strings.ToLower` and
  `bytes.TrimSpace` are modelled ASCII-wise.
* Go `float32` confidences are modelled as `Rat`: the code only compares
  and copies scores (never does arithmetic on them), and comparison of
  representable values agrees with the rational order.
* A Go map is modelled as an association list with unique first-hit
  lookup; `m[k]` on a missing key yields the zero value `0`.
* Fallible operations (`Filer.ReadDir`, `Filer.ReadFile`) return `Except`;
  a Go run-time fault (out-of-range slice or index) is modelled as `none`
  in an `Option`-valued result.  Go slicing `b[:n]` is modelled with
  `cap = len`, the tight case, so it faults whenever `n > len b`.
* External collaborators (the markup preprocessors, the enry language
  classifier, the regexp engine applied to the comment-syntax patterns and
  the reference-database query operations) are fields of a context `Ctx`;
  the pipeline is verified for every instantiation of them.
-/

set_option maxHeartbeats 1000000

set_option maxRecDepth 20000

/-- Byte-sequence model of Go strings and byte slices (ASCII-faithful). -/
abbrev GoStr := List Char

/-- Model of strings.ToLower, ASCII-wise. -/
def toLowerStr (s : GoStr) : GoStr := s.map Char.toLower

/-- Characters accepted by the separator classes `[-_. ]` of
`licenseFileRe`. -/
def isSepChar (c : Char) : Bool := c = '-' || c = '_' || c = '.' || c = ' '

/-- ASCII white-space set used to model bytes.TrimSpace. -/
def isSpaceChar (c : Char) : Bool :=
  c = ' ' || c = '\t' || c = '\n' || c = '\r' || c = '\x0b' || c = '\x0c'

/-- Model of bytes.TrimSpace (ASCII white space). -/
def trimSpace (s : GoStr) : GoStr :=
  ((s.dropWhile isSpaceChar).reverse.dropWhile isSpaceChar).reverse

/-- Model of path.Base: the last element of a slash-separated path, with
trailing slashes removed. -/
def pathBase (s : GoStr) : GoStr :=
  if s = [] then ['.']
  else
    let t := s.reverse.dropWhile (fun c => c = '/')
    if t = [] then ['/']
    else (t.takeWhile (fun c => c ≠ '/')).reverse

/-- Model of path.Ext: the suffix starting at the final dot in the final
slash-separated element, or empty when there is no dot. -/
def pathExt (s : GoStr) : GoStr :=
  let r := s.reverse.takeWhile (fun c => c ≠ '/')
  if r.contains '.' then '.' :: (r.takeWhile (fun c => c ≠ '.')).reverse
  else []

/-- Model of path.Join for the use in Detect: both segments are non-empty
cleaned names, so Join is plain slash concatenation. -/
def pathJoin (a b : GoStr) : GoStr := a ++ '/' :: b

/-!
Language of `licenseFileRe`, built in the source as

  ^(|.*[-_. ])(ALT)(|[-_. ].*)$

where ALT joins the `licenseFileNames` patterns.  The matcher below is
the direct language semantics of that regular expression over the lowered
base name: a match is a three-way split prefix / core / suffix.  `.`
matches any character except a newline in the Go regexp package.
-/

/-- Words of the pattern `li[cs]en[cs]e(s?)`. -/
def licenseSpellings : List GoStr :=
  ["license".data, "licenses".data, "licence".data, "licences".data,
   "lisense".data, "lisenses".data, "lisence".data, "lisences".data]

/-- Literal alternatives among `licenseFileNames` with no inner pattern
structure: `legal`, `copy(left|right|ing)` expanded, `unlicense`, `bsd`,
`mit`, `apache`. -/
def literalLicenseWords : List GoStr :=
  ["legal".data, "copyleft".data, "copyright".data, "copying".data,
   "unlicense".data, "bsd".data, "mit".data, "apache".data]

/-- Version part `(\d\.?\d)?` of the GPL pattern: empty, two digits, or
digit dot digit. -/
def gplVersionPart (w : GoStr) : Bool :=
  match w with
  | [] => true
  | [a, b] => a.isDigit && b.isDigit
  | [a, d, b] => a.isDigit && d = '.' && b.isDigit
  | _ => false

/-- Separator class `[-_ v]` of the GPL pattern (note: no dot). -/
def isGplSep (c : Char) : Bool := c = '-' || c = '_' || c = ' ' || c = 'v'

/-- Tail of the GPL pattern after `l?gpl`: `([-_ v]?)(\d\.?\d)?`.  When the
next character is a separator the version must follow it; a separator can
never begin the version part, so the split is unambiguous. -/
def gplTail (w : GoStr) : Bool :=
  match w with
  | [] => true
  | c :: rest => if isGplSep c then gplVersionPart rest else gplVersionPart w

/-- Language of the alternation of all `licenseFileNames` patterns. -/
def isLicenseCore (w : GoStr) : Bool :=
  licenseSpellings.contains w || literalLicenseWords.contains w ||
  (match w with
   | 'g' :: 'p' :: 'l' :: rest => gplTail rest
   | 'l' :: 'g' :: 'p' :: 'l' :: rest => gplTail rest
   | _ => false)

/-- Language of the first group `(|.*[-_. ])`: empty, or any
newline-free text followed by one separator character. -/
def licensePreOk (pre : GoStr) : Bool :=
  match pre.getLast? with
  | none => true
  | some c => isSepChar c && pre.dropLast.all (fun x => x ≠ '\n')

/-- Language of the last group `(|[-_. ].*)`: empty, or one separator
character followed by any newline-free text. -/
def licenseSufOk (suf : GoStr) : Bool :=
  match suf with
  | [] => true
  | c :: rest => isSepChar c && rest.all (fun x => x ≠ '\n')

/-- Model of `licenseFileRe.MatchString`: the anchored pattern matches
exactly when the string splits into prefix, core alternative and suffix. -/
def matchLicenseRe (s : GoStr) : Bool :=
  (List.range (s.length + 1)).any (fun i =>
    licensePreOk (s.take i) &&
    (List.range ((s.drop i).length + 1)).any (fun j =>
      isLicenseCore ((s.drop i).take j) && licenseSufOk ((s.drop i).drop j)))

/-- Model of `licenseDirectoryRe.MatchString` composed with ToLower, i.e.
the source function IsLicenseDirectory: the lowered directory name must
equal one alternative exactly (pattern `^(ALT)$`). -/
def IsLicenseDirectory (fileName : GoStr) : Bool :=
  isLicenseCore (toLowerStr fileName)

/-- Language of `readmeFileRe`, pattern
`^(readme|guidelines)(|\.md|\.rst|\.html|\.txt)$`: a finite list of
whole-string alternatives. -/
def readmeNames : List GoStr :=
  ["readme".data, "readme.md".data, "readme.rst".data, "readme.html".data,
   "readme.txt".data, "guidelines".data, "guidelines.md".data,
   "guidelines.rst".data, "guidelines.html".data, "guidelines.txt".data]

/-- Model of `readmeFileRe.MatchString`. -/
def matchReadmeRe (s : GoStr) : Bool := readmeNames.contains s

/-!
Score maps.  A Go `map[string]float32` is modelled as an association
list with first-hit lookup; reading a missing key yields the zero value.
-/

/-- Model of `map[string]float32`. -/
abbrev ScoreMap := List (String × Rat)

/-- Two-valued Go map read: `v, ok := m[k]`. -/
def lookupScore (m : ScoreMap) (k : String) : Option Rat :=
  (m.find? (fun p => decide (p.1 = k))).map (fun p => p.2)

/-- One-valued Go map read `m[k]`: the zero value 0 on a missing key. -/
def getScore (m : ScoreMap) (k : String) : Rat :=
  (lookupScore m k).getD 0

/-- Go map write `m[k] = v`: replace the first binding of `k`, or append
a new binding. -/
def setScore (m : ScoreMap) (k : String) (v : Rat) : ScoreMap :=
  match m with
  | [] => [(k, v)]
  | p :: rest => if p.1 = k then (k, v) :: rest else p :: setScore rest k v

/-- Inner loop of InvestigateLicenseTexts (and of InvestigateReadmeTexts
and InvestigateHeaderComments, which share it verbatim): fold one
candidate score map into the accumulator, keeping each key when its
score exceeds the accumulated one (`if sim > maxSim`). -/
def mergeCandidate (maxLicenses : ScoreMap) (candidates : ScoreMap) : ScoreMap :=
  candidates.foldl
    (fun acc p => if getScore acc p.1 < p.2 then setScore acc p.1 p.2 else acc)
    maxLicenses

/-- Stage-level merge of a list of per-candidate score maps, the common
shape of the three Investigate*s loops. -/
def mergeScoreMaps (maps : List ScoreMap) : ScoreMap :=
  maps.foldl mergeCandidate []

/-- Model of InvestigateLicenseTexts: query each candidate text and merge
the per-candidate score maps, keeping the maximum per license name.  The
database query `InvestigateLicenseText` lives outside src and is the
abstract parameter `query`. -/
def InvestigateLicenseTexts (query : GoStr → ScoreMap) (texts : List GoStr) : ScoreMap :=
  texts.foldl (fun maxLicenses text => mergeCandidate maxLicenses (query text)) []

/-- Model of InvestigateReadmeTexts; identical merge loop over the
README query. -/
def InvestigateReadmeTexts (query : GoStr → ScoreMap) (texts : List GoStr) : ScoreMap :=
  texts.foldl (fun maxLicenses text => mergeCandidate maxLicenses (query text)) []

/-- Model of InvestigateHeaderComments; identical merge loop over the
source-file query. -/
def InvestigateHeaderComments (query : GoStr → ScoreMap) (texts : List GoStr) : ScoreMap :=
  texts.foldl (fun maxLicenses text => mergeCandidate maxLicenses (query text)) []

/-- Best score recorded for key `k` anywhere in the input maps, with the
Go zero value 0 as the base of the fold. -/
def bestEntry (maps : List ScoreMap) (k : String) : Rat :=
  (((maps.flatten).filter (fun p => decide (p.1 = k))).map (fun p => p.2)).foldl max 0

/-- Score maps whose recorded values are all positive. -/
def PosMap (m : ScoreMap) : Prop := ∀ p ∈ m, (0 : Rat) < p.2

/-!
File-tree access and external collaborators.
-/

/-- Model of filer.File: one directory entry. -/
structure FileInfo where
  name : GoStr
  isDir : Bool
deriving DecidableEq

/-- Model of the filer.Filer interface: one-level directory listing and
file reading, both fallible. -/
structure Filer where
  readDir : GoStr → Except GoStr (List FileInfo)
  readFile : GoStr → Except GoStr GoStr

/-- Success test of a fallible read, Go `err == nil`. -/
def readOk {ε α : Type} (r : Except ε α) : Bool :=
  match r with
  | Except.ok _ => true
  | Except.error _ => false

/-- External collaborators of the pipeline: the three markup
preprocessors, the enry language classifier, the regexp engine applied to
the comment-syntax patterns, and the three query operations of the
reference license database (which lives outside src). -/
structure Ctx where
  markdown : GoStr → GoStr
  rst : GoStr → GoStr
  html : GoStr → GoStr
  getLanguage : GoStr → GoStr × Bool
  regexFindAll : String → GoStr → List (List GoStr)
  queryLicenseText : GoStr → ScoreMap
  queryReadmeText : GoStr → ScoreMap
  querySourceFile : GoStr → ScoreMap

/-- Model of the filePreprocessors map lookup followed by application:
files with extension .md, .rst or .html are stripped, others pass
through. -/
def applyPreprocessor (ctx : Ctx) (file text : GoStr) : GoStr :=
  if pathExt file = ".md".data then ctx.markdown text
  else if pathExt file = ".rst".data then ctx.rst text
  else if pathExt file = ".html".data then ctx.html text
  else text

/-- Per-file body of the ExtractLicenseFiles loop.  Mirrors the source:
`text` is the nil slice when the read fails; a content shorter than 128
bytes triggers a redirect read of the trimmed content, whose inner `err`
shadows the outer one, so the final `if err == nil` check still tests the
initial read. -/
def licenseCandidateOf (ctx : Ctx) (fs : Filer) (file : GoStr) : List GoStr :=
  if matchLicenseRe (toLowerStr (pathBase file)) then
    let r := fs.readFile file
    let text : GoStr := match r with | Except.ok t => t | Except.error _ => []
    let ft : GoStr × GoStr :=
      if text.length < 128 then
        match fs.readFile (trimSpace text) with
        | Except.ok realText => (trimSpace text, realText)
        | Except.error _ => (file, text)
      else (file, text)
    if readOk r then [applyPreprocessor ctx ft.1 ft.2] else []
  else []

/-- Model of ExtractLicenseFiles: filter the file names through
`licenseFileRe` over the lowered base name, read each match (following
sub-128-byte redirects) and collect the preprocessed texts. -/
def ExtractLicenseFiles (ctx : Ctx) (fs : Filer) (files : List GoStr) : List GoStr :=
  files.foldl (fun candidates file => candidates ++ licenseCandidateOf ctx fs file) []

/-- Per-file body of the ExtractReadmeFiles loop.  The source matches
`readmeFileRe` against the lowered full path, not the base name. -/
def readmeCandidateOf (ctx : Ctx) (fs : Filer) (file : GoStr) : List GoStr :=
  if matchReadmeRe (toLowerStr file) then
    match fs.readFile file with
    | Except.ok text => [applyPreprocessor ctx file text]
    | Except.error _ => []
  else []

/-- Model of ExtractReadmeFiles. -/
def ExtractReadmeFiles (ctx : Ctx) (fs : Filer) (files : List GoStr) : List GoStr :=
  files.foldl (fun candidates file => candidates ++ readmeCandidateOf ctx fs file) []

/-!
Comment-syntax table and the source-file stage.  The regexp patterns are
the literal pattern strings of the `commentSyntaxes` map; their matching
semantics (`regexp.FindAllStringSubmatch`) is the external engine
`Ctx.regexFindAll`, which returns the (possibly empty) list of matches,
each a list of group captures.
-/

/-- Single-line or block comment pattern shared by C, C++ and C#. -/
def cCommentPattern : String :=
  "(\\/\x7b2\x7d.*\\t?\\r?\\n?)|(\\/\\*(.*\\t*\\r*\\n*)*\\*\\/)"

/-- Block comment pattern shared by CSS, Go, Java, Javascript,
Objective-C, PHP, Rust, Swift and Scala. -/
def blockCommentPattern : String :=
  "(\\/\\*(.*\\t*\\r*\\n*)*\\*\\/)"

/-- Comment pattern of the Haskel entry. -/
def haskelCommentPattern : String :=
  "(-\x7b2\x7d.*\\t?\\r?\\n?)|(\\\x7b-(.*\\t*\\r*\\n*)*\\-\\\x7d)"

/-- Comment pattern of the Matlab entry. -/
def matlabCommentPattern : String :=
  "(%\\\x7b(.*\\s+.*)*%\\\x7d)"

/-- Comment pattern of the Python entry (an interpreted Go string, so the
escapes denote actual control characters). -/
def pythonCommentPattern : String :=
  "(#.*\t?\r?\n?)|(```.*```)"

/-- Comment pattern of the SQL entry. -/
def sqlCommentPattern : String :=
  "(-\x7b2\x7d.*\\t?\\r?\\n?)|(\\/\\*(.*\\t*\\r*\\n*)*\\*\\/)"

/-- Entries of the `commentSyntaxes` map (the commented-out languages of
the source are absent from the map and therefore absent here). -/
def commentSyntaxTable : List (String × String) :=
  [("C", cCommentPattern), ("C++", cCommentPattern), ("C#", cCommentPattern),
   ("CSS", blockCommentPattern), ("Go", blockCommentPattern),
   ("Haskel", haskelCommentPattern), ("Java", blockCommentPattern),
   ("Javascript", blockCommentPattern), ("Matlab", matlabCommentPattern),
   ("Objective-C", blockCommentPattern), ("PHP", blockCommentPattern),
   ("Python", pythonCommentPattern), ("Rust", blockCommentPattern),
   ("Swift", blockCommentPattern), ("Scala", blockCommentPattern),
   ("SQL", sqlCommentPattern)]

/-- Lookup `reg, exists := commentSyntaxes[candidateLang]`, pairing the
table pattern with the external regexp engine. -/
def commentSyntaxes (ctx : Ctx) (lang : GoStr) : Option (GoStr → List (List GoStr)) :=
  (commentSyntaxTable.find? (fun p => decide (p.1.data = lang))).map
    (fun p => ctx.regexFindAll p.2)

/-- Go slice `b[:n]` modelled with `cap = len`: fails (run-time fault)
whenever `n` exceeds the length. -/
def goSliceTo (b : GoStr) (n : Nat) : Option GoStr :=
  if n ≤ b.length then some (b.take n) else none

/-- Concatenation of every group capture of every match, the `matchText`
accumulation of ExtractHeaderComments. -/
def matchTextOf (groups : List (List GoStr)) : GoStr :=
  (groups.map (fun g => g.flatten)).flatten

/-- Model of ExtractHeaderComments.  `none` models a run-time fault: the
loop indexes `langs[key]` and slices `candidate[:1024]` unconditionally,
so it faults on a candidate shorter than 1024 bytes (and on a langs list
shorter than the candidates list).  The `candidateHeader != nil` test of
the source is vacuously true once the slice succeeded.  A language
without a table entry only prints a diagnostic and adds nothing. -/
def ExtractHeaderComments (ctx : Ctx) (candidates : List GoStr) (langs : List GoStr) :
    Option (List GoStr) :=
  candidates.enum.foldl
    (fun acc kc =>
      match acc with
      | none => none
      | some comments =>
        match langs.get? kc.1 with
        | none => none
        | some candidateLang =>
          match goSliceTo kc.2 1024 with
          | none => none
          | some candidateHeader =>
            match commentSyntaxes ctx candidateLang with
            | some reg =>
              if reg candidateHeader = [] then some comments
              else some (comments ++ [matchTextOf (reg candidateHeader)])
            | none => some comments)
    (some [])

/-- Model of ExtractSourceFiles.  Mirrors the source loop: for every file
confidently classified, the language is appended to `langs` before the
read is attempted, while the candidate text is appended only when the
read succeeds — so a failed read shifts every later candidate against the
langs list. -/
def ExtractSourceFiles (ctx : Ctx) (fs : Filer) (files : List GoStr) :
    Option (List GoStr) :=
  let cl := files.foldl
    (fun (acc : List GoStr × List GoStr) file =>
      let lg := ctx.getLanguage file
      if lg.2 then
        let langs := acc.2 ++ [lg.1]
        match fs.readFile file with
        | Except.ok text => (acc.1 ++ [applyPreprocessor ctx file text], langs)
        | Except.error _ => (acc.1, langs)
      else acc)
    ([], [])
  if 0 < cl.1.length then ExtractHeaderComments ctx cl.1 cl.2 else some cl.1

/-!
The Detect pipeline.
-/

/-- Error outcomes of Detect: a failed root listing propagates its error,
and ErrNoLicenseFound reports that no stage matched. -/
inductive DetectError where
  | readDirFailed (e : GoStr)
  | noLicenseFound
deriving DecidableEq

/-- File-name collection loop of Detect: top-level files plus the
immediate children of license-like directories (one level, joined
paths); a failed sub-listing is ignored. -/
def collectFileNames (fs : Filer) (files : List FileInfo) : List GoStr :=
  files.foldl
    (fun fileNames file =>
      if !file.isDir then fileNames ++ [file.name]
      else if IsLicenseDirectory file.name then
        match fs.readDir file.name with
        | Except.ok subfiles =>
          fileNames ++
            (subfiles.filter (fun s => !s.isDir)).map (fun s => pathJoin file.name s.name)
        | Except.error _ => fileNames
      else fileNames)
    []

/-- Tail of Detect from the source-header stage on (Plan C), taking the
current value of the mutable `licenses` variable.  `none` propagates a
stage-3 run-time fault. -/
def DetectPlanC (ctx : Ctx) (fs : Filer) (fileNames : List GoStr)
    (licenses : ScoreMap) : Option (Except DetectError ScoreMap) :=
  match ExtractSourceFiles ctx fs fileNames with
  | none => none
  | some candidates =>
    let licenses2 :=
      if 0 < candidates.length then
        InvestigateHeaderComments ctx.querySourceFile candidates
      else licenses
    if licenses2.length = 0 then some (Except.error DetectError.noLicenseFound)
    else some (Except.ok licenses2)

/-- Model of Detect: root listing, license-file stage with early return,
README stage with early return, then Plan C.  The value of the mutable
`licenses` variable at the Plan C call is passed explicitly (it is the
empty stage-1 result when the README stage had no candidates, and the
empty stage-2 result otherwise). -/
def Detect (ctx : Ctx) (fs : Filer) : Option (Except DetectError ScoreMap) :=
  match fs.readDir [] with
  | Except.error e => some (Except.error (DetectError.readDirFailed e))
  | Except.ok files =>
    let fileNames := collectFileNames fs files
    let licenses :=
      InvestigateLicenseTexts ctx.queryLicenseText (ExtractLicenseFiles ctx fs fileNames)
    if 0 < licenses.length then some (Except.ok licenses)
    else
      let candidates := ExtractReadmeFiles ctx fs fileNames
      if 0 < candidates.length then
        let licensesB := InvestigateReadmeTexts ctx.queryReadmeText candidates
        if 0 < licensesB.length then some (Except.ok licensesB)
        else DetectPlanC ctx fs fileNames licensesB
      else DetectPlanC ctx fs fileNames licenses

/-- Merged score map of the license-file stage. -/
def stage1Map (ctx : Ctx) (fs : Filer) (fileNames : List GoStr) : ScoreMap :=
  InvestigateLicenseTexts ctx.queryLicenseText (ExtractLicenseFiles ctx fs fileNames)

/-- Merged score map of the README stage (the merge over no candidates is
empty, matching the guarded call in the source). -/
def stage2Map (ctx : Ctx) (fs : Filer) (fileNames : List GoStr) : ScoreMap :=
  InvestigateReadmeTexts ctx.queryReadmeText (ExtractReadmeFiles ctx fs fileNames)

/-- Merged score map of the source-header stage, `none` when the stage
faults. -/
def stage3Map (ctx : Ctx) (fs : Filer) (fileNames : List GoStr) : Option ScoreMap :=
  (ExtractSourceFiles ctx fs fileNames).map
    (fun candidates => InvestigateHeaderComments ctx.querySourceFile candidates)

/-!
Concrete fixtures used by witnesses and counterexamples.
-/

/-- Context whose external collaborators are all trivial. -/
def ctxId : Ctx :=
  { markdown := id, rst := id, html := id,
    getLanguage := fun _ => ([], false),
    regexFindAll := fun _ _ => [],
    queryLicenseText := fun _ => [],
    queryReadmeText := fun _ => [],
    querySourceFile := fun _ => [] }

/-- Filer whose every file reads as 130 copies of the letter a. -/
def fsPlate : Filer :=
  { readDir := fun _ => Except.ok [],
    readFile := fun _ => Except.ok (List.replicate 130 'a') }

/-- Filer whose every file reads as the text MIT. -/
def fsReadme : Filer :=
  { readDir := fun _ => Except.ok [],
    readFile := fun _ => Except.ok "MIT".data }

/-- Filer on which reading LICENSE is denied but every other path reads
successfully. -/
def fsRedirDenied : Filer :=
  { readDir := fun _ => Except.ok [],
    readFile := fun p =>
      if p = "LICENSE".data then Except.error "denied".data
      else Except.ok "MIT License sample text".data }

/-- Filer with a 11-byte LICENSE redirect pointing at a 200-byte
LICENSE-MIT file. -/
def fsRedirect : Filer :=
  { readDir := fun _ => Except.ok [],
    readFile := fun p =>
      if p = "LICENSE".data then Except.ok "LICENSE-MIT".data
      else if p = "LICENSE-MIT".data then Except.ok (List.replicate 200 'm')
      else Except.error "notfound".data }

/-- Content of the Python source fixture: exactly 1024 bytes, so the
header slice itself does not fault. -/
def pyContent : GoStr := List.replicate 1024 '#'

/-- Context for the source-header fixtures: a.go is confidently Go, b.py
is confidently Python, and the regexp engine finds one comment for the
Python pattern and nothing for any other pattern. -/
def ctxSrc : Ctx :=
  { markdown := id, rst := id, html := id,
    getLanguage := fun f =>
      if f = "a.go".data then ("Go".data, true)
      else if f = "b.py".data then ("Python".data, true)
      else ([], false),
    regexFindAll := fun pat _ =>
      if pat = pythonCommentPattern then [["# sample comment".data]] else [],
    queryLicenseText := fun _ => [],
    queryReadmeText := fun _ => [],
    querySourceFile := fun _ => [] }

/-- Filer for the source-header fixtures: b.py reads as the 1024-byte
Python content, every other read fails. -/
def fsSrc : Filer :=
  { readDir := fun _ => Except.ok [],
    readFile := fun f =>
      if f = "b.py".data then Except.ok pyContent else Except.error "fail".data }

/-- Context whose license-text query always reports MIT with full
confidence. -/
def ctxMIT : Ctx := { ctxId with queryLicenseText := fun _ => [("MIT", 1)] }

/-- Filer with a single top-level LICENSE file. -/
def fsMIT : Filer :=
  { readDir := fun _ => Except.ok [{ name := "LICENSE".data, isDir := false }],
    readFile := fun _ => Except.ok "MIT sample".data }

/-- Filer over an empty tree whose reads all fail. -/
def fsLicenseless : Filer :=
  { readDir := fun _ => Except.ok [],
    readFile := fun _ => Except.error "no".data }

theorem lookupScore_nil (k : String) : lookupScore [] k = none := rfl

theorem lookupScore_cons (p : String × Rat) (m : ScoreMap) (k : String) :
    lookupScore (p :: m) k = if p.1 = k then some p.2 else lookupScore m k := by
  by_cases h : p.1 = k
  · simp [lookupScore, List.find?_cons_of_pos, h]
  · simp [lookupScore, List.find?_cons_of_neg, h]

theorem getScore_nil (k : String) : getScore [] k = 0 := rfl

theorem getScore_cons (p : String × Rat) (m : ScoreMap) (k : String) :
    getScore (p :: m) k = if p.1 = k then p.2 else getScore m k := by
  by_cases h : p.1 = k <;> simp [getScore, lookupScore_cons, h]

theorem getScore_setScore_same (m : ScoreMap) (k : String) (v : Rat) :
    getScore (setScore m k v) k = v := by
  induction m with
  | nil => simp [setScore, getScore_cons, getScore_nil]
  | cons p rest ih =>
    by_cases h : p.1 = k
    · simp [setScore, h, getScore_cons]
    · simpa [setScore, h, getScore_cons] using ih

theorem getScore_setScore_other (m : ScoreMap) (k k' : String) (v : Rat)
    (h : k' ≠ k) : getScore (setScore m k v) k' = getScore m k' := by
  induction m with
  | nil => simp [setScore, getScore_cons, getScore_nil, Ne.symm h]
  | cons p rest ih =>
    by_cases hp : p.1 = k
    · rw [show setScore (p :: rest) k v = (k, v) :: rest by simp [setScore, hp]]
      rw [getScore_cons, getScore_cons, hp]
      simp [Ne.symm h]
    · rw [show setScore (p :: rest) k v = p :: setScore rest k v by simp [setScore, hp]]
      rw [getScore_cons, getScore_cons, ih]

theorem if_lt_eq_max (a b : Rat) : (if a < b then b else a) = max a b := by
  rcases le_or_lt b a with h | h
  · simp [not_lt.mpr h, max_eq_left h]
  · simp [h, max_eq_right (le_of_lt h)]

/-- Pointwise effect of one entry of the merge loop. -/
theorem getScore_mergeStep (acc : ScoreMap) (p : String × Rat) (k : String) :
    getScore (if getScore acc p.1 < p.2 then setScore acc p.1 p.2 else acc) k =
      if p.1 = k then max (getScore acc k) p.2 else getScore acc k := by
  by_cases hk : p.1 = k
  · subst hk
    by_cases h : getScore acc p.1 < p.2
    · simp [h, getScore_setScore_same, max_eq_right (le_of_lt h)]
    · simp [h, max_eq_left (not_lt.mp h)]
  · by_cases h : getScore acc p.1 < p.2
    · simp [h, hk, getScore_setScore_other acc p.1 k p.2 (fun he => hk he.symm)]
    · simp [h, hk]

/-- Pointwise characterisation of folding one candidate map in: the value
at `k` becomes the max of the accumulated value and every score recorded
for `k` in the candidate map. -/
theorem getScore_mergeCandidate (m : ScoreMap) (acc : ScoreMap) (k : String) :
    getScore (mergeCandidate acc m) k =
      ((m.filter (fun p => decide (p.1 = k))).map (fun p => p.2)).foldl max
        (getScore acc k) := by
  induction m generalizing acc with
  | nil => simp [mergeCandidate]
  | cons p rest ih =>
    have hstep := getScore_mergeStep acc p k
    by_cases hk : p.1 = k
    · simp only [mergeCandidate, List.foldl_cons] at *
      rw [ih, hstep]
      simp [hk]
    · simp only [mergeCandidate, List.foldl_cons] at *
      rw [ih, hstep]
      simp [hk]

/-- Pointwise characterisation of the whole stage merge relative to an
arbitrary accumulator. -/
theorem getScore_mergeFold (maps : List ScoreMap) (acc : ScoreMap) (k : String) :
    getScore (maps.foldl mergeCandidate acc) k =
      (((maps.flatten).filter (fun p => decide (p.1 = k))).map (fun p => p.2)).foldl max
        (getScore acc k) := by
  induction maps generalizing acc with
  | nil => simp
  | cons m rest ih =>
    rw [List.foldl_cons, ih (mergeCandidate acc m), getScore_mergeCandidate]
    simp [List.filter_append, List.foldl_append]

/-- Pointwise value of the stage merge: the max of all recorded scores
for the key, with zero as the base. -/
theorem getScore_mergeScoreMaps (maps : List ScoreMap) (k : String) :
    getScore (mergeScoreMaps maps) k = bestEntry maps k := by
  have h := getScore_mergeFold maps [] k
  simpa [mergeScoreMaps, bestEntry, getScore, lookupScore] using h

theorem posMap_setScore (m : ScoreMap) (k : String) (v : Rat)
    (hm : PosMap m) (hv : 0 < v) : PosMap (setScore m k v) := by
  induction m with
  | nil =>
    intro p hp
    rw [show setScore [] k v = [(k, v)] from rfl] at hp
    rcases List.mem_singleton.mp hp with h
    simpa [h] using hv
  | cons q rest ih =>
    intro p hp
    by_cases hq : q.1 = k
    · rw [show setScore (q :: rest) k v = (k, v) :: rest by simp [setScore, hq]] at hp
      rcases List.mem_cons.mp hp with h | h
      · simpa [h] using hv
      · exact hm p (List.mem_cons_of_mem _ h)
    · rw [show setScore (q :: rest) k v = q :: setScore rest k v by simp [setScore, hq]] at hp
      rcases List.mem_cons.mp hp with h | h
      · exact h ▸ hm q (List.mem_cons_self q rest)
      · exact ih (fun r hr => hm r (List.mem_cons_of_mem _ hr)) p h

theorem getScore_nonneg (m : ScoreMap) (k : String) (hm : PosMap m) :
    0 ≤ getScore m k := by
  unfold getScore lookupScore
  cases hf : m.find? (fun p => decide (p.1 = k)) with
  | none => simp
  | some p =>
    have hmem : p ∈ m := List.mem_of_find?_eq_some hf
    simpa using le_of_lt (hm p hmem)

theorem posMap_mergeCandidate (m : ScoreMap) (acc : ScoreMap) (hacc : PosMap acc) :
    PosMap (mergeCandidate acc m) := by
  induction m generalizing acc with
  | nil => simpa [mergeCandidate] using hacc
  | cons p rest ih =>
    simp only [mergeCandidate, List.foldl_cons]
    by_cases h : getScore acc p.1 < p.2
    · rw [if_pos h]
      exact ih _ (posMap_setScore acc p.1 p.2 hacc
        (lt_of_le_of_lt (getScore_nonneg acc p.1 hacc) h))
    · rw [if_neg h]
      exact ih _ hacc

theorem posMap_mergeFold (maps : List ScoreMap) (acc : ScoreMap) (hacc : PosMap acc) :
    PosMap (maps.foldl mergeCandidate acc) := by
  induction maps generalizing acc with
  | nil => simpa using hacc
  | cons m rest ih =>
    rw [List.foldl_cons]
    exact ih _ (posMap_mergeCandidate m acc hacc)

theorem posMap_mergeScoreMaps (maps : List ScoreMap) : PosMap (mergeScoreMaps maps) :=
  posMap_mergeFold maps [] (fun p hp => absurd hp (List.not_mem_nil p))

/-- On positive maps the two-valued read is determined by the one-valued
read: present exactly when the value is positive. -/
theorem lookupScore_eq_of_posMap (m : ScoreMap) (k : String) (hm : PosMap m) :
    lookupScore m k = if 0 < getScore m k then some (getScore m k) else none := by
  cases hf : lookupScore m k with
  | none =>
    have hz : getScore m k = 0 := by simp [getScore, hf]
    rw [hz]
    simp
  | some v =>
    have hv : getScore m k = v := by simp [getScore, hf]
    have hpos : 0 < v := by
      unfold lookupScore at hf
      cases hf2 : m.find? (fun p => decide (p.1 = k)) with
      | none => rw [hf2] at hf; simp at hf
      | some p =>
        rw [hf2] at hf
        simp only [Option.map_some'] at hf
        have hmem : p ∈ m := List.mem_of_find?_eq_some hf2
        have := hm p hmem
        injection hf with h
        rw [← h]
        exact this
    rw [hv, if_pos hpos]

theorem foldl_max_perm {l₁ l₂ : List Rat} (h : l₁.Perm l₂) :
    ∀ b : Rat, l₁.foldl max b = l₂.foldl max b := by
  induction h with
  | nil => intro b; rfl
  | cons x _ ih => intro b; rw [List.foldl_cons, List.foldl_cons, ih]
  | swap x y l =>
    intro b
    rw [List.foldl_cons, List.foldl_cons, List.foldl_cons, List.foldl_cons,
      sup_right_comm]
  | trans _ _ ih₁ ih₂ => intro b; rw [ih₁, ih₂]

theorem perm_flatten_of_perm {α : Type} {l₁ l₂ : List (List α)} (h : l₁.Perm l₂) :
    l₁.flatten.Perm l₂.flatten := by
  induction h with
  | nil => exact List.Perm.refl _
  | cons x _ ih => simpa [List.flatten_cons] using ih.append_left x
  | swap x y l =>
    rw [List.flatten_cons, List.flatten_cons, List.flatten_cons, List.flatten_cons,
      ← List.append_assoc, ← List.append_assoc]
    exact (List.perm_append_comm).append_right l.flatten
  | trans _ _ ih₁ ih₂ => exact ih₁.trans ih₂

/-- Reordering the input score maps does not change the best recorded
score of any key. -/
theorem bestEntry_perm {maps₁ maps₂ : List ScoreMap} (h : maps₁.Perm maps₂)
    (k : String) : bestEntry maps₁ k = bestEntry maps₂ k :=
  foldl_max_perm (((perm_flatten_of_perm h).filter _).map _) 0

/-- C2, counterexample.  The claim states that the stage-level merge
assigns to each license id the maximum confidence observed for that id
across all input maps.  For the input `[{"MIT": 0}]` the maximum observed
confidence for `MIT` is 0, yet the merged map has no binding for `MIT` at
all (the Go guard `sim > maxSim` compares against the zero value of a
missing key and never inserts a non-positive score), so the merged map is
empty rather than `{"MIT": 0}`. -/
theorem merge_drops_zero_confidence_entry :
    lookupScore (mergeScoreMaps [[("MIT", (0 : Rat))]]) "MIT" = none ∧
      mergeScoreMaps [[("MIT", (0 : Rat))]] = [] := by
  constructor
  · rfl
  · rfl

/-- C2, amended claim: for every list of per-candidate score maps, the
stage-level merge binds a license id exactly when the maximum confidence
observed for it is strictly positive, and then binds it to that maximum;
ids whose observed confidences are all non-positive are absent.  The
merged result is independent of the order in which the input maps are
folded in, and in particular merging `{"MIT": 0.4}` with
`{"MIT": 0.9, "BSD-3": 0.2}` yields `{"MIT": 0.9, "BSD-3": 0.2}` in
either order. -/
theorem merge_max_positive_order_independent :
    (∀ (maps : List ScoreMap) (k : String),
        lookupScore (mergeScoreMaps maps) k =
          if 0 < bestEntry maps k then some (bestEntry maps k) else none)
    ∧ (∀ (maps₁ maps₂ : List ScoreMap), maps₁.Perm maps₂ →
        ∀ k, lookupScore (mergeScoreMaps maps₁) k = lookupScore (mergeScoreMaps maps₂) k)
    ∧ mergeScoreMaps [[("MIT", (2 : Rat)/5)], [("MIT", (9 : Rat)/10), ("BSD-3", (1 : Rat)/5)]]
        = [("MIT", (9 : Rat)/10), ("BSD-3", (1 : Rat)/5)]
    ∧ mergeScoreMaps [[("MIT", (9 : Rat)/10), ("BSD-3", (1 : Rat)/5)], [("MIT", (2 : Rat)/5)]]
        = [("MIT", (9 : Rat)/10), ("BSD-3", (1 : Rat)/5)] := by
  have hchar : ∀ (maps : List ScoreMap) (k : String),
      lookupScore (mergeScoreMaps maps) k =
        if 0 < bestEntry maps k then some (bestEntry maps k) else none := by
    intro maps k
    rw [lookupScore_eq_of_posMap _ _ (posMap_mergeScoreMaps maps),
      getScore_mergeScoreMaps]
  refine ⟨hchar, ?_,
    by norm_num +decide [mergeScoreMaps, mergeCandidate, setScore, getScore,
      lookupScore, List.find?],
    by norm_num +decide [mergeScoreMaps, mergeCandidate, setScore, getScore,
      lookupScore, List.find?]⟩
  intro maps₁ maps₂ h k
  rw [hchar maps₁ k, hchar maps₂ k, bestEntry_perm h k]

theorem foldl_append_shift {α β : Type} (g : α → List β) :
    ∀ (xs : List α) (acc : List β),
      xs.foldl (fun a x => a ++ g x) acc = acc ++ xs.foldl (fun a x => a ++ g x) [] := by
  intro xs
  induction xs with
  | nil => intro acc; simp
  | cons x rest ih =>
    intro acc
    rw [List.foldl_cons, List.foldl_cons, ih (acc ++ g x), ih ([] ++ g x)]
    simp

theorem ExtractLicenseFiles_cons (ctx : Ctx) (fs : Filer) (file : GoStr)
    (rest : List GoStr) :
    ExtractLicenseFiles ctx fs (file :: rest) =
      licenseCandidateOf ctx fs file ++ ExtractLicenseFiles ctx fs rest := by
  unfold ExtractLicenseFiles
  rw [List.foldl_cons, foldl_append_shift (licenseCandidateOf ctx fs)]
  simp

theorem ExtractReadmeFiles_cons (ctx : Ctx) (fs : Filer) (file : GoStr)
    (rest : List GoStr) :
    ExtractReadmeFiles ctx fs (file :: rest) =
      readmeCandidateOf ctx fs file ++ ExtractReadmeFiles ctx fs rest := by
  unfold ExtractReadmeFiles
  rw [List.foldl_cons, foldl_append_shift (readmeCandidateOf ctx fs)]
  simp

/-- C2, witness: the amended order-independence applied to a concrete
two-map swap. -/
theorem merge_max_positive_order_independent_witness :
    lookupScore (mergeScoreMaps
        [[("MIT", (2 : Rat)/5)], [("MIT", (9 : Rat)/10), ("BSD-3", (1 : Rat)/5)]]) "MIT" =
      lookupScore (mergeScoreMaps
        [[("MIT", (9 : Rat)/10), ("BSD-3", (1 : Rat)/5)], [("MIT", (2 : Rat)/5)]]) "MIT" :=
  merge_max_positive_order_independent.2.1 _ _
    (List.Perm.swap [("MIT", (9 : Rat)/10), ("BSD-3", (1 : Rat)/5)] [("MIT", (2 : Rat)/5)] [])
    "MIT"

/-- C5, counterexample.  The claim states that license-plate.txt is not
classified as a license-file candidate; but `licenseFileRe` accepts it
(core word license, separator -, arbitrary suffix), and
ExtractLicenseFiles turns the file into a scored candidate. -/
theorem license_plate_txt_is_classified :
    matchLicenseRe (toLowerStr (pathBase "license-plate.txt".data)) = true ∧
      ExtractLicenseFiles ctxId fsPlate ["license-plate.txt".data] =
        [List.replicate 130 'a'] := by
  constructor
  · decide
  · rfl

/-- C5, amended claim: classification is case-insensitive and anchored
with optional separator-delimited surroundings, so LICENSE, License.txt,
COPYING and unlicense.md are classified, and so is license-plate.txt
(the pattern word license is followed by the separator -); only a pattern
word embedded in an unrelated word with no separator fails to match, as
in unlicensed, limit.txt or nolicense. -/
theorem license_name_classification_cases :
    matchLicenseRe (toLowerStr (pathBase "LICENSE".data)) = true ∧
      matchLicenseRe (toLowerStr (pathBase "License.txt".data)) = true ∧
      matchLicenseRe (toLowerStr (pathBase "COPYING".data)) = true ∧
      matchLicenseRe (toLowerStr (pathBase "unlicense.md".data)) = true ∧
      matchLicenseRe (toLowerStr (pathBase "license-plate.txt".data)) = true ∧
      matchLicenseRe (toLowerStr (pathBase "unlicensed".data)) = false ∧
      matchLicenseRe (toLowerStr (pathBase "limit.txt".data)) = false ∧
      matchLicenseRe (toLowerStr (pathBase "nolicense".data)) = false := by
  decide

/-- C8, counterexample.  The claim states that a readme file listed from
inside a matched license directory is still classified by its base name;
but ExtractReadmeFiles matches `readmeFileRe` against the lowered full
path, so licenses/readme.md yields no candidate although its base name
matches. -/
theorem readme_in_license_directory_not_classified :
    matchReadmeRe (toLowerStr (pathBase "licenses/readme.md".data)) = true ∧
      ExtractReadmeFiles ctxId fsReadme ["licenses/readme.md".data] = [] := by
  constructor
  · decide
  · rfl

/-- C8, amended claim: a file is classified as a README candidate exactly
when its full relative path, compared case-insensitively, matches
`(readme|guidelines)` with an optional fixed extension; for top-level
files the path equals the base name, but a readme inside a matched
license directory is not classified. -/
theorem readme_classification_uses_full_path :
    (∀ (ctx : Ctx) (fs : Filer) (file : GoStr) (rest : List GoStr),
        (matchReadmeRe (toLowerStr file) = false →
          ExtractReadmeFiles ctx fs (file :: rest) = ExtractReadmeFiles ctx fs rest) ∧
        (matchReadmeRe (toLowerStr file) = true →
          ExtractReadmeFiles ctx fs (file :: rest) =
            (match fs.readFile file with
             | Except.ok text => [applyPreprocessor ctx file text]
             | Except.error _ => []) ++ ExtractReadmeFiles ctx fs rest))
    ∧ matchReadmeRe (toLowerStr "README.md".data) = true
    ∧ matchReadmeRe (toLowerStr "licenses/readme.md".data) = false := by
  refine ⟨?_, by decide, by decide⟩
  intro ctx fs file rest
  constructor
  · intro hfalse
    rw [ExtractReadmeFiles_cons]
    unfold readmeCandidateOf
    rw [hfalse]
    simp
  · intro htrue
    rw [ExtractReadmeFiles_cons]
    unfold readmeCandidateOf
    rw [htrue]
    simp

/-- C8, witness: the amended characterisation applied to the readme
inside the licenses directory. -/
theorem readme_classification_uses_full_path_witness :
    ExtractReadmeFiles ctxId fsReadme ["licenses/readme.md".data] =
      ExtractReadmeFiles ctxId fsReadme [] :=
  (readme_classification_uses_full_path.1 ctxId fsReadme
      "licenses/readme.md".data []).1 (by decide)

/-- C10: a candidate whose initial read fails contributes nothing to the
ExtractLicenseFiles result, whatever the redirect read does, because the
inner redirect error shadows the outer one and the final inclusion check
still tests the initial read. -/
theorem license_initial_read_error_excludes_candidate (ctx : Ctx) (fs : Filer)
    (file : GoStr) (rest : List GoStr) (h : readOk (fs.readFile file) = false) :
    ExtractLicenseFiles ctx fs (file :: rest) = ExtractLicenseFiles ctx fs rest := by
  rw [ExtractLicenseFiles_cons]
  cases hr : fs.readFile file with
  | ok t =>
    rw [hr] at h
    simp [readOk] at h
  | error e =>
    simp [licenseCandidateOf, hr, readOk]

/-- C10, witness: LICENSE cannot be read, its nil content trims to the
empty relative path, that redirect target is readable, and the candidate
is still excluded. -/
theorem license_initial_read_error_excludes_candidate_witness :
    readOk (fsRedirDenied.readFile "LICENSE".data) = false ∧
      readOk (fsRedirDenied.readFile (trimSpace [])) = true ∧
      ExtractLicenseFiles ctxId fsRedirDenied ["LICENSE".data] =
        ExtractLicenseFiles ctxId fsRedirDenied [] :=
  ⟨by decide, by decide,
    license_initial_read_error_excludes_candidate ctxId fsRedirDenied
      "LICENSE".data [] (by decide)⟩

/-- C4: for a matched candidate whose content is shorter than 128 bytes,
the trimmed content is read as a relative path; on success the target
text (and the target path, for preprocessor selection) replaces the
original candidate, on failure the original short content is still
scored. -/
theorem license_redirect_under_128_scores_target (ctx : Ctx) (fs : Filer)
    (file text : GoStr) (rest : List GoStr)
    (hm : matchLicenseRe (toLowerStr (pathBase file)) = true)
    (hr : fs.readFile file = Except.ok text)
    (hlen : text.length < 128) :
    (∀ target, fs.readFile (trimSpace text) = Except.ok target →
        ExtractLicenseFiles ctx fs (file :: rest) =
          applyPreprocessor ctx (trimSpace text) target ::
            ExtractLicenseFiles ctx fs rest)
    ∧ (∀ e, fs.readFile (trimSpace text) = Except.error e →
        ExtractLicenseFiles ctx fs (file :: rest) =
          applyPreprocessor ctx file text :: ExtractLicenseFiles ctx fs rest) := by
  constructor
  · intro target ht
    rw [ExtractLicenseFiles_cons]
    simp [licenseCandidateOf, hm, hr, hlen, ht, readOk]
  · intro e ht
    rw [ExtractLicenseFiles_cons]
    simp [licenseCandidateOf, hm, hr, hlen, ht, readOk]

/-- C4, witness: a LICENSE file holding only the text LICENSE-MIT scores
the 200-byte sibling content instead of the 11-byte redirect string. -/
theorem license_redirect_under_128_scores_target_witness :
    ExtractLicenseFiles ctxId fsRedirect ["LICENSE".data] =
      applyPreprocessor ctxId (trimSpace "LICENSE-MIT".data) (List.replicate 200 'm') ::
        ExtractLicenseFiles ctxId fsRedirect [] :=
  (license_redirect_under_128_scores_target ctxId fsRedirect "LICENSE".data
      "LICENSE-MIT".data [] (by decide) (by rfl) (by decide)).1
    (List.replicate 200 'm') (by rfl)

/-- C6, code bug.  The claim (and section 4.2 of the specification) says
header-comment extraction completes for every candidate and a source file
shorter than 1024 bytes is still processed with its whole content as the
window; the code slices `candidate[:1024]` unconditionally, which is out
of range for this 13-byte candidate, so extraction faults instead of
completing (modelled as `none`). -/
theorem header_comments_fault_on_short_candidate :
    ("package main\n".data.length < 1024) ∧
      ExtractHeaderComments ctxId ["package main\n".data] ["Go".data] = none := by
  constructor
  · decide
  · rfl

/-- C7, code bug.  The claim (and section 5 of the specification) says a
failed read drops only that candidate and every surviving candidate is
processed as if the failed file were absent, in particular paired with
the comment syntax of its own language.  But ExtractSourceFiles appends
the language before checking the read error, so after the failed a.go
read the surviving b.py content is paired with langs[0] = Go and matched
with the Go block-comment pattern, yielding no comment, whereas the same
tree without a.go pairs b.py with the Python pattern and yields its
comment. -/
theorem source_stage_read_failure_misaligns_languages :
    readOk (fsSrc.readFile "a.go".data) = false ∧
      ExtractSourceFiles ctxSrc fsSrc ["a.go".data, "b.py".data] = some [] ∧
      ExtractSourceFiles ctxSrc fsSrc ["b.py".data] =
        some ["# sample comment".data] := by
  refine ⟨by decide, ?_, ?_⟩
  · rfl
  · rfl

/-- Unfolding of Detect under a successful root listing. -/
theorem Detect_ok (ctx : Ctx) (fs : Filer) (files : List FileInfo)
    (h : fs.readDir [] = Except.ok files) :
    Detect ctx fs =
      (if 0 < (stage1Map ctx fs (collectFileNames fs files)).length then
        some (Except.ok (stage1Map ctx fs (collectFileNames fs files)))
      else if 0 < (ExtractReadmeFiles ctx fs (collectFileNames fs files)).length then
        (if 0 < (stage2Map ctx fs (collectFileNames fs files)).length then
          some (Except.ok (stage2Map ctx fs (collectFileNames fs files)))
        else
          DetectPlanC ctx fs (collectFileNames fs files)
            (stage2Map ctx fs (collectFileNames fs files)))
      else
        DetectPlanC ctx fs (collectFileNames fs files)
          (stage1Map ctx fs (collectFileNames fs files))) := by
  unfold Detect stage1Map stage2Map
  rw [h]

/-- Plan C on an empty current score map, phrased through stage3Map. -/
theorem DetectPlanC_empty (ctx : Ctx) (fs : Filer) (fileNames : List GoStr) :
    DetectPlanC ctx fs fileNames [] =
      (match stage3Map ctx fs fileNames with
       | none => none
       | some m =>
         if m = [] then some (Except.error DetectError.noLicenseFound)
         else some (Except.ok m)) := by
  unfold DetectPlanC stage3Map
  cases hx : ExtractSourceFiles ctx fs fileNames with
  | none => rfl
  | some cands =>
    cases cands with
    | nil => rfl
    | cons c cs =>
      simp only [Option.map_some', List.length_cons]
      have hpos : 0 < cs.length + 1 := Nat.succ_pos _
      rw [if_pos hpos]
      by_cases hz :
          InvestigateHeaderComments ctx.querySourceFile (c :: cs) = []
      · rw [hz]
        simp
      · rw [if_neg (fun hlen => hz (List.length_eq_zero.mp hlen)), if_neg hz]

/-- Helper: a non-empty license-file stage is returned directly. -/
theorem detect_of_stage1_nonempty (ctx : Ctx) (fs : Filer) (files : List FileInfo)
    (h : fs.readDir [] = Except.ok files)
    (h1 : stage1Map ctx fs (collectFileNames fs files) ≠ []) :
    Detect ctx fs = some (Except.ok (stage1Map ctx fs (collectFileNames fs files))) := by
  rw [Detect_ok ctx fs files h, if_pos (List.length_pos.mpr h1)]

/-- Helper: with an empty license-file stage, a non-empty README stage is
returned directly. -/
theorem detect_of_stage2_nonempty (ctx : Ctx) (fs : Filer) (files : List FileInfo)
    (h : fs.readDir [] = Except.ok files)
    (h1 : stage1Map ctx fs (collectFileNames fs files) = [])
    (h2 : stage2Map ctx fs (collectFileNames fs files) ≠ []) :
    Detect ctx fs = some (Except.ok (stage2Map ctx fs (collectFileNames fs files))) := by
  have hnpos : ¬ 0 < (stage1Map ctx fs (collectFileNames fs files)).length := by
    simp [h1]
  have hrc : ExtractReadmeFiles ctx fs (collectFileNames fs files) ≠ [] := by
    intro he
    apply h2
    unfold stage2Map
    rw [he]
    rfl
  rw [Detect_ok ctx fs files h, if_neg hnpos, if_pos (List.length_pos.mpr hrc),
    if_pos (List.length_pos.mpr h2)]

/-- Helper: with both early stages empty, Detect is Plan C on the empty
score map. -/
theorem detect_of_stages12_empty (ctx : Ctx) (fs : Filer) (files : List FileInfo)
    (h : fs.readDir [] = Except.ok files)
    (h1 : stage1Map ctx fs (collectFileNames fs files) = [])
    (h2 : stage2Map ctx fs (collectFileNames fs files) = []) :
    Detect ctx fs = DetectPlanC ctx fs (collectFileNames fs files) [] := by
  have hnpos : ¬ 0 < (stage1Map ctx fs (collectFileNames fs files)).length := by
    simp [h1]
  rw [Detect_ok ctx fs files h, if_neg hnpos]
  by_cases hrc : 0 < (ExtractReadmeFiles ctx fs (collectFileNames fs files)).length
  · have hn2 : ¬ 0 < (stage2Map ctx fs (collectFileNames fs files)).length := by
      simp [h2]
    rw [if_pos hrc, if_neg hn2, h2]
  · rw [if_neg hrc, h1]

/-- C1: under a successful root listing the pipeline is a strict cascade.
A non-empty license-file stage is returned at once and the result does
not depend on the README query, the language classifier, the comment
regexp engine or the source-file query (the later stages are never
consulted); an empty license-file stage followed by a non-empty README
stage is returned at once and does not depend on the source-header
collaborators. -/
theorem detect_runs_stages_in_order (ctx : Ctx) (fs : Filer) (files : List FileInfo)
    (h : fs.readDir [] = Except.ok files) :
    (stage1Map ctx fs (collectFileNames fs files) ≠ [] →
      Detect ctx fs = some (Except.ok (stage1Map ctx fs (collectFileNames fs files))) ∧
      (∀ (gl : GoStr → GoStr × Bool) (re : String → GoStr → List (List GoStr))
          (qr qs : GoStr → ScoreMap),
        Detect { ctx with getLanguage := gl, regexFindAll := re,
                          queryReadmeText := qr, querySourceFile := qs } fs =
          some (Except.ok (stage1Map ctx fs (collectFileNames fs files)))))
    ∧ (stage1Map ctx fs (collectFileNames fs files) = [] →
        stage2Map ctx fs (collectFileNames fs files) ≠ [] →
      Detect ctx fs = some (Except.ok (stage2Map ctx fs (collectFileNames fs files))) ∧
      (∀ (gl : GoStr → GoStr × Bool) (re : String → GoStr → List (List GoStr))
          (qs : GoStr → ScoreMap),
        Detect { ctx with getLanguage := gl, regexFindAll := re,
                          querySourceFile := qs } fs =
          some (Except.ok (stage2Map ctx fs (collectFileNames fs files))))) := by
  constructor
  · intro h1
    constructor
    · exact detect_of_stage1_nonempty ctx fs files h h1
    · intro gl re qr qs
      have e1 : stage1Map
          { ctx with getLanguage := gl, regexFindAll := re,
                     queryReadmeText := qr, querySourceFile := qs } fs
            (collectFileNames fs files) =
          stage1Map ctx fs (collectFileNames fs files) := rfl
      have := detect_of_stage1_nonempty
        { ctx with getLanguage := gl, regexFindAll := re,
                   queryReadmeText := qr, querySourceFile := qs } fs files h
        (by rw [e1]; exact h1)
      rw [e1] at this
      exact this
  · intro h1 h2
    constructor
    · exact detect_of_stage2_nonempty ctx fs files h h1 h2
    · intro gl re qs
      have e1 : stage1Map
          { ctx with getLanguage := gl, regexFindAll := re,
                     querySourceFile := qs } fs (collectFileNames fs files) =
          stage1Map ctx fs (collectFileNames fs files) := rfl
      have e2 : stage2Map
          { ctx with getLanguage := gl, regexFindAll := re,
                     querySourceFile := qs } fs (collectFileNames fs files) =
          stage2Map ctx fs (collectFileNames fs files) := rfl
      have := detect_of_stage2_nonempty
        { ctx with getLanguage := gl, regexFindAll := re,
                   querySourceFile := qs } fs files h
        (by rw [e1]; exact h1) (by rw [e2]; exact h2)
      rw [e2] at this
      exact this

/-- C3: under a successful root listing, Detect returns the distinct
ErrNoLicenseFound exactly when all three stages produce an empty merged
score map (the source-header stage completing without a fault); and
whenever a stage yields a non-empty map with every earlier stage empty,
Detect returns that map with no error. -/
theorem detect_not_found_iff_all_stages_empty (ctx : Ctx) (fs : Filer)
    (files : List FileInfo) (h : fs.readDir [] = Except.ok files) :
    (Detect ctx fs = some (Except.error DetectError.noLicenseFound) ↔
      (stage1Map ctx fs (collectFileNames fs files) = [] ∧
        stage2Map ctx fs (collectFileNames fs files) = [] ∧
        stage3Map ctx fs (collectFileNames fs files) = some []))
    ∧ (stage1Map ctx fs (collectFileNames fs files) ≠ [] →
        Detect ctx fs = some (Except.ok (stage1Map ctx fs (collectFileNames fs files))))
    ∧ (stage1Map ctx fs (collectFileNames fs files) = [] →
        stage2Map ctx fs (collectFileNames fs files) ≠ [] →
        Detect ctx fs = some (Except.ok (stage2Map ctx fs (collectFileNames fs files))))
    ∧ (∀ m : ScoreMap, stage1Map ctx fs (collectFileNames fs files) = [] →
        stage2Map ctx fs (collectFileNames fs files) = [] →
        stage3Map ctx fs (collectFileNames fs files) = some m → m ≠ [] →
        Detect ctx fs = some (Except.ok m)) := by
  refine ⟨⟨?_, ?_⟩, ?_, ?_, ?_⟩
  · intro hdet
    have h1 : stage1Map ctx fs (collectFileNames fs files) = [] := by
      by_contra h1
      rw [detect_of_stage1_nonempty ctx fs files h h1] at hdet
      simp at hdet
    have h2 : stage2Map ctx fs (collectFileNames fs files) = [] := by
      by_contra h2
      rw [detect_of_stage2_nonempty ctx fs files h h1 h2] at hdet
      simp at hdet
    refine ⟨h1, h2, ?_⟩
    rw [detect_of_stages12_empty ctx fs files h h1 h2, DetectPlanC_empty] at hdet
    cases hs3 : stage3Map ctx fs (collectFileNames fs files) with
    | none => rw [hs3] at hdet; simp at hdet
    | some m =>
      rw [hs3] at hdet
      by_cases hm : m = []
      · rw [hm]
      · simp only [if_neg hm] at hdet
        simp at hdet
  · intro hall
    rcases hall with ⟨h1, h2, h3⟩
    rw [detect_of_stages12_empty ctx fs files h h1 h2, DetectPlanC_empty, h3]
    rfl
  · intro h1
    exact detect_of_stage1_nonempty ctx fs files h h1
  · intro h1 h2
    exact detect_of_stage2_nonempty ctx fs files h h1 h2
  · intro m h1 h2 h3 hm
    rw [detect_of_stages12_empty ctx fs files h h1 h2, DetectPlanC_empty, h3]
    simp only [if_neg hm]

/-- C1, witness: on a tree with one LICENSE file the cascade stops at the
license-file stage. -/
theorem detect_runs_stages_in_order_witness :
    Detect ctxMIT fsMIT = some (Except.ok [("MIT", (1 : Rat))]) := by
  have hstage : stage1Map ctxMIT fsMIT
      (collectFileNames fsMIT [{ name := "LICENSE".data, isDir := false }]) =
      [("MIT", (1 : Rat))] := by rfl
  have hd := (detect_runs_stages_in_order ctxMIT fsMIT
      [{ name := "LICENSE".data, isDir := false }] rfl).1
    (by rw [hstage]; simp)
  rw [hd.1, hstage]

/-- C3, witness: on an empty tree every stage is empty and Detect returns
ErrNoLicenseFound. -/
theorem detect_not_found_iff_all_stages_empty_witness :
    Detect ctxId fsLicenseless = some (Except.error DetectError.noLicenseFound) :=
  (detect_not_found_iff_all_stages_empty ctxId fsLicenseless [] rfl).1.mpr
    ⟨rfl, rfl, rfl⟩
